import Mathlib

/-!
Verification development for the WiMa wardriving tool chain
(`make_map.py`, `scripts/csv_to_geojson.py`, `scripts/parse_netxml.py`).

The Python/JavaScript sources are shallowly embedded:

* Machine floats are modelled by `PyFloat`: exact decimals `n * 10^e`
  plus the three special values `inf`, `neginf`, `nan` (`toQ` gives the
  rational denotation).  Decimal arithmetic is exact, so double rounding
  and overflow of huge literals are not modelled; no theorem below depends
  on values anywhere near those regimes.
* JSON / dict values are modelled by `JVal`; property mappings are
  association lists looked up by first match (Python dicts have unique
  keys, so the choice is immaterial).
* Fallible code returns `Option`; a Python exception escaping a function is
  an `Except.error`.
-/

namespace WiMa

/-- A Python/JS floating-point value: an exact decimal `n * 10^e`, or a
special value.  Values produced by the string parsers are canonical
(`n` not divisible by 10, and `0 * 10^0` for zero), so equality of parsed
values coincides with numeric equality; `toQ` gives the denotation. -/
inductive PyFloat where
  | finite (n : ℤ) (e : ℤ)
  | inf
  | neginf
  | nan
deriving DecidableEq, Repr

/-- Denotation of a finite decimal as a rational. -/
def toQ (n e : ℤ) : ℚ := (n : ℚ) * (10 : ℚ) ^ e

/-- Executable strict comparison of two finite decimals
(`n1*10^e1 < n2*10^e2`), by scaling both to the smaller exponent. -/
def decLtB (n1 e1 n2 e2 : ℤ) : Bool :=
  n1 * 10 ^ (e1 - min e1 e2).toNat < n2 * 10 ^ (e2 - min e1 e2).toNat

/-- Executable non-strict comparison of two finite decimals. -/
def decLeB (n1 e1 n2 e2 : ℤ) : Bool :=
  n1 * 10 ^ (e1 - min e1 e2).toNat ≤ n2 * 10 ^ (e2 - min e1 e2).toNat

/-- A JSON-ish value as found in GeoJSON `properties` mappings.  Python's
`json` module distinguishes `int` from `float`, hence both `int` and `num`. -/
inductive JVal where
  | null
  | bool (b : Bool)
  | int (n : ℤ)
  | num (x : PyFloat)
  | str (s : String)
  | arr (xs : List JVal)
  | obj (fields : List (String × JVal))

/-- A property mapping (a Python dict / JS object), as an association list. -/
abbrev Props := List (String × JVal)

/-- First-match association-list lookup, modelling `props.get(k)` /
`props[k]`. -/
def getProp : Props → String → Option JVal
  | [], _ => none
  | (k, v) :: rest, key => if k = key then some v else getProp rest key

/-- ASCII lowercasing, modelling `.lower()` / `.toLowerCase()` on the ASCII
strings these tools handle. -/
def asciiLower (s : String) : String := ⟨s.data.map Char.toLower⟩

/-- ASCII uppercasing, modelling `.upper()`. -/
def asciiUpper (s : String) : String := ⟨s.data.map Char.toUpper⟩

/-- Strip leading and trailing whitespace, modelling both Python's
`.strip()` and JS `.trim()` on these ASCII inputs. -/
def stripWS (s : String) : String :=
  ⟨(s.data.dropWhile Char.isWhitespace).reverse.dropWhile
      Char.isWhitespace |>.reverse⟩

/-- Join strings with a separator (`sep.join(...)` / `.join(sep)`). -/
def joinWith (sep : String) : List String → String
  | [] => ""
  | [s] => s
  | s :: rest => s ++ sep ++ joinWith sep rest

/-- Test `leadsWith pat l`: true when `pat` is an initial segment of `l`. -/
def leadsWith : List Char → List Char → Bool
  | [], _ => true
  | _ :: _, [] => false
  | a :: as, b :: bs => a == b && leadsWith as bs

/-- Test `subOf pat l`: `pat` occurs as a contiguous run inside `l`
(Python's `pat in l`, JS `l.includes(pat)`). -/
def subOf (pat : List Char) : List Char → Bool
  | [] => leadsWith pat []
  | c :: rest => leadsWith pat (c :: rest) || subOf pat rest

/-- Digits of a numeral to a natural number. -/
def digitsToNat (ds : List Char) : ℕ :=
  ds.foldl (fun n c => 10 * n + (c.toNat - '0'.toNat)) 0

/-- Longest run of decimal digits allowing single underscores between digits
(PEP 515), returning the digits (underscores removed) and the rest.  The
caller guarantees the first character is a digit. -/
def digitsTail : List Char → List Char × List Char
  | [] => ([], [])
  | c :: rest =>
    if c.isDigit then
      let p := digitsTail rest
      (c :: p.1, p.2)
    else if c = '_' then
      match rest with
      | d :: rest2 =>
        if d.isDigit then
          let p := digitsTail rest2
          (d :: p.1, p.2)
        else ([], c :: rest)
      | [] => ([], [c])
    else ([], c :: rest)

/-- Does the list start with a decimal digit? -/
def headDigit : List Char → Bool
  | c :: _ => c.isDigit
  | [] => false

/-- Canonical finite decimal from a sign, mantissa digits and exponent:
trailing zero digits move into the exponent, and an all-zero mantissa
gives the canonical zero. -/
def mkDec (neg : Bool) (ds : List Char) (e : ℤ) : PyFloat :=
  let r := ds.reverse.dropWhile (· = '0')
  match r with
  | [] => .finite 0 0
  | _ =>
    let m : ℤ := (digitsToNat r.reverse : ℤ)
    .finite (if neg then -m else m) (e + ((ds.length - r.length : ℕ) : ℤ))

/-- The decimal-literal part of CPython's `float(str)`: digits with optional
underscores, optional fraction, optional exponent; the whole input must be
consumed. -/
def parseDecimal (l : List Char) (neg : Bool) : Option PyFloat :=
  let p1 := if headDigit l then digitsTail l else ([], l)
  let ids := p1.1
  let p2 := match p1.2 with
    | '.' :: rest => if headDigit rest then digitsTail rest else ([], rest)
    | r => ([], r)
  let fds := p2.1
  if ids.isEmpty && fds.isEmpty then none
  else
    let fl : ℤ := fds.length
    match p2.2 with
    | [] => some (mkDec neg (ids ++ fds) (-fl))
    | e :: rest =>
      if e = 'e' ∨ e = 'E' then
        let p3 : Bool × List Char := match rest with
          | '+' :: r => (false, r)
          | '-' :: r => (true, r)
          | r => (false, r)
        if headDigit p3.2 then
          let p4 := digitsTail p3.2
          if p4.2.isEmpty then
            let ev : ℤ := (digitsToNat p4.1 : ℤ)
            some (mkDec neg (ids ++ fds) ((if p3.1 then -ev else ev) - fl))
          else none
        else none
      else none

/-- Body of `float(str)` after the optional sign: the special words
`inf`/`infinity`/`nan` (case-insensitive, whole string) or a decimal. -/
def pyFloatBody (l : List Char) (neg : Bool) : Option PyFloat :=
  let low := l.map Char.toLower
  if low = "inf".toList ∨ low = "infinity".toList then
    some (if neg then .neginf else .inf)
  else if low = "nan".toList then some .nan
  else parseDecimal l neg

/-- CPython's `float(str)`: strip whitespace, optional sign, then the body;
`none` models `ValueError`.  (Non-ASCII digits and the Unicode minus are
rejected, exactly as CPython rejects `float("−75")`.) -/
def pyFloat? (s : String) : Option PyFloat :=
  match (s.toList.dropWhile Char.isWhitespace).reverse.dropWhile
      Char.isWhitespace |>.reverse with
  | '+' :: rest => pyFloatBody rest false
  | '-' :: rest => pyFloatBody rest true
  | l => pyFloatBody l false

/-- Exponent suffix of a JS `parseFloat` literal: longest digit run, `0` if
there are no digits (the `e` is then simply not part of the number). -/
def jsExpDigits (r : List Char) (eneg : Bool) : ℤ :=
  let eds := r.takeWhile Char.isDigit
  if eds.isEmpty then 0
  else if eneg then -(digitsToNat eds : ℤ) else (digitsToNat eds : ℤ)

/-- Body of JS `parseFloat` after the optional sign: the case-sensitive word
`Infinity`, or the longest decimal-literal prefix; `nan` when no digits can
be read at all. -/
def jsFloatBody (l : List Char) (neg : Bool) : PyFloat :=
  if leadsWith "Infinity".toList l then (if neg then .neginf else .inf)
  else
    let ids := l.takeWhile Char.isDigit
    let r1 := l.dropWhile Char.isDigit
    let p2 : List Char × List Char := match r1 with
      | '.' :: rest => (rest.takeWhile Char.isDigit, rest.dropWhile Char.isDigit)
      | r => ([], r)
    let fds := p2.1
    if ids.isEmpty && fds.isEmpty then .nan
    else
      let fl : ℤ := fds.length
      let ev : ℤ := match p2.2 with
        | e :: rest =>
          if e = 'e' ∨ e = 'E' then
            match rest with
            | '+' :: r => jsExpDigits r false
            | '-' :: r => jsExpDigits r true
            | r => jsExpDigits r false
          else 0
        | [] => 0
      mkDec neg (ids ++ fds) (ev - fl)

/-- JS `parseFloat`: skip leading whitespace, optional sign, parse the
longest valid prefix; `nan` on failure. -/
def jsParseFloat (s : String) : PyFloat :=
  match s.toList.dropWhile Char.isWhitespace with
  | '+' :: rest => jsFloatBody rest false
  | '-' :: rest => jsFloatBody rest true
  | l => jsFloatBody l false

/-- Replace every occurrence of a character (Python `str.replace` with
single-character arguments). -/
def replaceAllChar (s : String) (c r : Char) : String :=
  ⟨s.data.map (fun d => if d = c then r else d)⟩

/-- Replace only the first occurrence of a character (JS `String.replace`
with a string pattern replaces the first match only). -/
def replaceFirstChar (s : String) (c r : Char) : String :=
  let rec go : List Char → List Char
    | [] => []
    | d :: rest => if d = c then r :: rest else d :: go rest
  ⟨go s.data⟩

/-- Remove every occurrence of lowercase `"dbm"`, scanning left to right
without rescanning (Python `s.replace("dbm", "")` on a lowercased string). -/
def removeDbm : List Char → List Char
  | 'd' :: 'b' :: 'm' :: rest => removeDbm rest
  | c :: rest => c :: removeDbm rest
  | [] => []

/-- Reversed list starts with `"mbd"` case-insensitively, i.e. the string
ends in `dBm`. -/
def revDbm : List Char → Bool
  | m :: b :: d :: _ => m.toLower = 'm' && b.toLower = 'b' && d.toLower = 'd'
  | _ => false

/-- Reversed list starts with `"bd"` case-insensitively, i.e. the string
ends in `dB`. -/
def revDb : List Char → Bool
  | b :: d :: _ => b.toLower = 'b' && d.toLower = 'd'
  | _ => false

/-- Model of `re.sub(r"\s*dBm?$", "", s, flags=re.IGNORECASE)` (and the identical JS
`s.replace(/\s*dBm?$/i, '')`): strip one trailing `dB`/`dBm` unit together
with the whitespace just before it. -/
def stripDb (s : String) : String :=
  if revDbm s.data.reverse then
    ⟨((s.data.reverse.drop 3).dropWhile Char.isWhitespace).reverse⟩
  else if revDb s.data.reverse then
    ⟨((s.data.reverse.drop 2).dropWhile Char.isWhitespace).reverse⟩
  else s

/-- Python `str()` of a value.  `str()` of containers and of non-integral
floats is abstracted to a bracketed marker: no claim below evaluates those
branches, and like the real reprs the markers never parse as numbers. -/
def pyStr : JVal → String
  | .null => "None"
  | .bool b => if b then "True" else "False"
  | .int n => toString n
  | .num (.finite n e) =>
    if 0 ≤ e then toString (n * 10 ^ e.toNat) ++ ".0" else "[float]"
  | .num .inf => "inf"
  | .num .neginf => "-inf"
  | .num .nan => "nan"
  | .str s => s
  | .arr _ => "[list]"
  | .obj _ => "[dict]"

/-- JS number-to-string for the cases exercised here (specials and integral
values); other finite values are abstracted to a marker that never parses
as a number. -/
def jsNumStr : PyFloat → String
  | .finite n e => if 0 ≤ e then toString (n * 10 ^ e.toNat) else "[float]"
  | .inf => "Infinity"
  | .neginf => "-Infinity"
  | .nan => "NaN"

mutual

/-- JS `String(x)`.  Arrays stringify as their elements joined with commas
(`Array.prototype.toString`), `null` elements becoming empty; plain objects
stringify as `[object Object]`. -/
def jsToString : JVal → String
  | .null => "null"
  | .bool b => if b then "true" else "false"
  | .int n => toString n
  | .num x => jsNumStr x
  | .str s => s
  | .arr xs => joinWith "," (jsToStringL xs)
  | .obj _ => "[object Object]"

/-- Stringify array elements for `jsToString`. -/
def jsToStringL : List JVal → List String
  | [] => []
  | .null :: vs => "" :: jsToStringL vs
  | v :: vs => jsToString v :: jsToStringL vs

end

/-- Python truthiness (`bool(x)`): note `nan` is truthy in Python. -/
def pyTruthy : JVal → Bool
  | .null => false
  | .bool b => b
  | .int n => n ≠ 0
  | .num (.finite n _) => n ≠ 0
  | .num _ => true
  | .str s => s ≠ ""
  | .arr xs => ¬ xs.isEmpty
  | .obj fs => ¬ fs.isEmpty

/-- JS truthiness: note `NaN` and `0` are falsy while `[]` and `\x7b\x7d`
are truthy. -/
def jsTruthy : JVal → Bool
  | .null => false
  | .bool b => b
  | .int n => n ≠ 0
  | .num (.finite n _) => n ≠ 0
  | .num .nan => false
  | .num _ => true
  | .str s => s ≠ ""
  | .arr _ => true
  | .obj _ => true

/-- Model of `make_map.coerce_float`: `None` passes through, `int`/`float` (and in
Python therefore also `bool`) convert directly, anything else is
stringified, stripped, Unicode-minus-normalized, unit-stripped,
comma-normalized and parsed; a parse failure gives `none`. -/
def coerce_float : JVal → Option PyFloat
  | .null => none
  | .bool b => some (.finite (if b then 1 else 0) 0)
  | .int n => some (.finite n 0)
  | .num x => some x
  | v =>
    let s := stripWS (pyStr v)
    let s := replaceAllChar s '−' '-'
    let s := stripDb s
    let s := replaceAllChar s ',' '.'
    pyFloat? s

/-- The constant `SIGNAL_KEYS` from `make_map.py`. -/
def SIGNAL_KEYS : List String :=
  ["Signal dBm",
   "signal_dbm",
   "kismet.device.base.signal.kismet.common.signal.last_signal",
   "kismet.device.base.signal/kismet.common.signal.last_signal",
   "kismet.common.signal.last_signal",
   "last_signal",
   "signal"]

/-- The constant `TYPE_KEYS` from `make_map.py`. -/
def TYPE_KEYS : List String :=
  ["type", "Type", "device_type", "kismet.device.base.type",
   "dot11.device.type", "kismet.device.base.typename", "typename"]

/-- Does a nested key name contain `signal` or `dbm` case-insensitively?
(Python `any(p in kk.lower() for p in ["signal", "dbm"])`, JS
`/(signal|dbm)/i.test(kk)`.) -/
def keyMatchesSignal (kk : String) : Bool :=
  subOf "signal".toList (asciiLower kk).toList ||
    subOf "dbm".toList (asciiLower kk).toList

/-- The flat-key loop of `extract_signal_dbm`: first ranked key that is
present and whose value coerces. -/
def flatScan : List String → Props → Option PyFloat
  | [], _ => none
  | k :: ks, props =>
    match getProp props k with
    | some v =>
      match coerce_float v with
      | some x => some x
      | none => flatScan ks props
    | none => flatScan ks props

/-- The inner loop of the nested scan: first key of a nested dict matching
`signal`/`dbm` whose value coerces. -/
def nestedInner : List (String × JVal) → Option PyFloat
  | [] => none
  | (kk, vv) :: rest =>
    if keyMatchesSignal kk then
      match coerce_float vv with
      | some c => some c
      | none => nestedInner rest
    else nestedInner rest

/-- The outer loop of the nested scan: values that are dicts, one level
deep (Python `isinstance(v, dict)` — lists are skipped). -/
def nestedScan : Props → Option PyFloat
  | [] => none
  | (_, .obj fields) :: rest =>
    match nestedInner fields with
    | some c => some c
    | none => nestedScan rest
  | _ :: rest => nestedScan rest

/-- Model of `make_map.extract_signal_dbm`: the ranked flat keys, then the shallow
nested scan, else absent. -/
def extract_signal_dbm (props : Props) : Option PyFloat :=
  match flatScan SIGNAL_KEYS props with
  | some v => some v
  | none => nestedScan props

/-- Does any of the lowercase needles occur in `text`
(`any(x in text for x in [...])`)? -/
def anyInfixOf (needles : List String) (text : String) : Bool :=
  needles.any (fun n => subOf n.toList text.toList)

/-- Python dict membership `k in props`. -/
def hasKey (props : Props) (k : String) : Bool :=
  (getProp props k).isSome

/-- Model of `make_map.infer_type`: join the `str()` of all `TYPE_KEYS` values
(absent keys contributing `""`), lowercase, then substring heuristics in
source order; finally the truthy-`ssid` fallback.  Note: this offline copy
has no explicit-field precedence step. -/
def infer_type (props : Props) : String :=
  let text := asciiLower (joinWith " "
    (TYPE_KEYS.map (fun k => pyStr ((getProp props k).getD (.str "")))))
  if anyInfixOf ["bridge", "bridged"] text then "bridge"
  else if anyInfixOf ["ap", "access point", "infrastructure", "base station"] text then "ap"
  else if anyInfixOf ["client", "station", "sta", "phone", "laptop"] text then "client"
  else if hasKey props "ssid" && pyTruthy ((getProp props "ssid").getD .null) then "ap"
  else "unknown"

/-- Model of `csv_to_geojson.to_float`: `None` passes through; everything else is
stringified, stripped, lowercased, has every `dbm` occurrence removed, then
goes through the source's no-op `.replace("-", "-")` (both characters are
the ASCII hyphen — the Unicode minus is NOT normalized), a sentinel-word
check, and `float()` with a comma-normalized retry. -/
def to_float (v : JVal) : Option PyFloat :=
  match v with
  | .null => none
  | v =>
    let s := asciiLower (stripWS (pyStr v))
    let s : String := ⟨removeDbm s.data⟩
    let s := replaceAllChar s '-' '-'
    if s = "" ∨ s = "none" ∨ s = "nan" then none
    else
      match pyFloat? s with
      | some x => some x
      | none => pyFloat? (replaceAllChar s ',' '.')

/-- A CSV data row as `csv.DictReader` yields it: header keys mapped to the
row's string cells (first-match lookup; CSV headers are unique). -/
abbrev Row := List (String × String)

/-- Lookup `row.get(k)`. -/
def getRow : Row → String → Option String
  | [], _ => none
  | (k, v) :: rest, key => if k = key then some v else getRow rest key

/-- Lookup `row.get(k, d)`. -/
def getRowD (row : Row) (k d : String) : String :=
  (getRow row k).getD d

/-- Python `a or b` over optional strings: the first operand unless it is
`None` or the empty string. -/
def pyOr (a b : Option String) : Option String :=
  match a with
  | some s => if s = "" then b else some s
  | none => b

/-- Python falsiness of an optional string (`not x`). -/
def notTruthy : Option String → Bool
  | none => true
  | some s => s = ""

/-- Absolute-value-below-tolerance test on a Python float
(`abs(x) < tol`; comparisons against `nan` are false, `abs(inf)` is not
below any tolerance). -/
def pyAbsLt (x : PyFloat) (tn te : ℤ) : Bool :=
  match x with
  | .finite n e => decLtB |n| e tn te
  | _ => false

/-- The GeoJSON feature built by the CSV ingest.  `geometry.coordinates`
is `[lon, lat]`, kept here as the `lon`/`lat` fields in that order. -/
structure CsvFeature where
  lon : PyFloat
  lat : PyFloat
  SSID : String
  BSSID : String
  Channel : String
  Signal : Option PyFloat
  Encryption : String
deriving DecidableEq, Repr

/-- Coordinate extraction of the CSV row loop: prefer
`CurrentLatitude`/`CurrentLongitude` over `Latitude`/`Longitude`
(via Python `or`, so a blank preferred cell falls back), skip falsy cells,
then `float()` both; `none` models `continue`. -/
def rowCoords (row : Row) : Option (PyFloat × PyFloat) :=
  let lat := pyOr (getRow row "CurrentLatitude") (getRow row "Latitude")
  let lon := pyOr (getRow row "CurrentLongitude") (getRow row "Longitude")
  if notTruthy lat || notTruthy lon then none
  else
    match lat, lon with
    | some la, some lo =>
      match pyFloat? la, pyFloat? lo with
      | some x, some y => some (x, y)
      | _, _ => none
    | _, _ => none

/-- The zero-coordinate sentinel tolerance `1e-4` from the row loop, as
the decimal pair `(1, -4)`. -/
def coordTolN : ℤ := 1

/-- Exponent of the zero-coordinate tolerance `1e-4`. -/
def coordTolE : ℤ := -4

/-- One iteration of the CSV ingest row loop: `none` when the row is
skipped, otherwise the emitted feature.  Field sources follow the source:
SSID (default `"hidden"` — a `dict.get` default, so it fires only when the
column is absent), MAC, Channel, `to_float(RSSI)`, AuthMode. -/
def processRow (row : Row) : Option CsvFeature :=
  match rowCoords row with
  | none => none
  | some (la, lo) =>
    if pyAbsLt la coordTolN coordTolE && pyAbsLt lo coordTolN coordTolE then none
    else
      some
        { lon := lo
          lat := la
          SSID := getRowD row "SSID" "hidden"
          BSSID := getRowD row "MAC" ""
          Channel := getRowD row "Channel" ""
          Signal := to_float (match getRow row "RSSI" with
            | none => .null
            | some s => .str s)
          Encryption := getRowD row "AuthMode" "" }

/-- The CSV ingest over all data rows; its length is the reported feature
count (`Saved N features`). -/
def csvFeatures (rows : List Row) : List CsvFeature :=
  rows.filterMap processRow

/-- The one uncaught exception class the netxml ingest can raise:
`AttributeError` from calling `.strip()`/`.upper()` on `None`. -/
inductive PyErr where
  | attributeError
deriving DecidableEq, Repr

/-- One `wireless-network` element of a Kismet netxml document.  For each
child element, the outer `Option` is element presence, the inner
`Option String` is `ElementTree`'s `.text` (which is `None` for an empty
element). -/
structure NetXML where
  bssid : Option String
  essid : Option (Option String)
  encryption : Option (Option String)
  channel : Option (Option String)
  lastSignal : Option (Option String)
  avgLat : Option (Option String)
  avgLon : Option (Option String)
deriving DecidableEq, Repr

/-- The flat CSV row `[ssid, bssid, enc, chan, lat, lon, rssi]` appended
for every record (`csv.writer` later renders `none` as the empty cell). -/
structure NetRow where
  ssid : String
  bssid : String
  enc : String
  chan : Option String
  lat : Option String
  lon : Option String
  rssi : Option String
deriving DecidableEq, Repr

/-- The GeoJSON feature the netxml ingest emits (`Signal` is the raw
`last_signal_dbm` text, not parsed). -/
structure NetFeature where
  lon : PyFloat
  lat : PyFloat
  ssid : String
  bssid : String
  enc : String
  chan : Option String
  sig : Option String
deriving DecidableEq, Repr

/-- One iteration of `parse_netxml`'s record loop.  `(ssid_el.text if
ssid_el is not None else "hidden").strip()` raises `AttributeError` when
the element is present with `None` text, and likewise `.upper()` for the
encryption element. -/
def parseRecord (r : NetXML) : Except PyErr (NetRow × Option NetFeature) := do
  let bssid := match r.bssid with
    | some b => if b = "" then "unknown" else b
    | none => "unknown"
  let ssid ← match r.essid with
    | none => pure "hidden"
    | some none => throw .attributeError
    | some (some t) => pure (if stripWS t = "" then "hidden" else stripWS t)
  let enc ← match r.encryption with
    | none => pure (asciiUpper "unknown")
    | some none => throw .attributeError
    | some (some t) => pure (asciiUpper t)
  let chan : Option String := match r.channel with
    | none => some ""
    | some t => t
  let rssi : Option String := match r.lastSignal with
    | none => some ""
    | some t => t
  let lat : Option String := match r.avgLat with
    | none => none
    | some t => t
  let lon : Option String := match r.avgLon with
    | none => none
    | some t => t
  let row : NetRow := ⟨ssid, bssid, enc, chan, lat, lon, rssi⟩
  let feature : Option NetFeature :=
    if notTruthy lat || notTruthy lon then none
    else
      match lat, lon with
      | some la, some lo =>
        match pyFloat? lo, pyFloat? la with
        | some x, some y => some ⟨x, y, ssid, bssid, enc, chan, rssi⟩
        | _, _ => none
      | _, _ => none
  return (row, feature)

/-- Model of `parse_netxml` over a document's records: every record appends a flat
row and possibly a feature; an uncaught exception aborts the whole file
(nothing is returned for any record). -/
def parse_netxml : List NetXML → Except PyErr (List NetRow × List NetFeature)
  | [] => .ok ([], [])
  | r :: rs => do
    let (row, f?) ← parseRecord r
    let (rows, fs) ← parse_netxml rs
    return (row :: rows, match f? with
      | some f => f :: fs
      | none => fs)

/-- JS `a || b || ... || ''` over property lookups: the first present,
truthy value, else the empty string. -/
def jsOrChain (props : Props) : List String → JVal
  | [] => .str ""
  | k :: ks =>
    match getProp props k with
    | some v => if jsTruthy v then v else jsOrChain props ks
    | none => jsOrChain props ks

/-- The string path of the embedded page's `coerceFloat`: trim, normalize
the first Unicode minus and first comma (JS `replace` with a string
pattern touches only the first occurrence), strip the unit, `parseFloat`,
and apply the `Number.isFinite` guard. -/
def jsStrCoerce (s0 : String) : Option PyFloat :=
  let s := stripWS s0
  let s := replaceFirstChar s '−' '-'
  let s := stripDb s
  let s := replaceFirstChar s ',' '.'
  match jsParseFloat s with
  | .finite n e => some (.finite n e)
  | _ => none

/-- The embedded page's `coerceFloat`: `null`/`undefined` give `null`,
numbers are returned unguarded (a `NaN` number passes straight through),
everything else goes through the guarded string path `jsStrCoerce`. -/
def jsCoerceFloat : JVal → Option PyFloat
  | .null => none
  | .int n => some (.finite n 0)
  | .num x => some x
  | v => jsStrCoerce (jsToString v)

/-- Entries of an array value (`Object.entries`): index keys paired with elements. -/
def arrEntries (i : ℕ) : List JVal → List (String × JVal)
  | [] => []
  | x :: xs => (toString i, x) :: arrEntries (i + 1) xs

/-- Entries `Object.entries(v)` for the nested scan's `v && typeof v === 'object'`
guard: objects and arrays qualify, `null` and primitives do not. -/
def jsEntries : JVal → Option (List (String × JVal))
  | .obj fields => some fields
  | .arr xs => some (arrEntries 0 xs)
  | _ => none

/-- The flat-key loop of the page's `extractSignal`. -/
def jsFlatScan : List String → Props → Option PyFloat
  | [], _ => none
  | k :: ks, props =>
    match getProp props k with
    | some v =>
      match jsCoerceFloat v with
      | some x => some x
      | none => jsFlatScan ks props
    | none => jsFlatScan ks props

/-- The inner nested-entries loop of the page's `extractSignal`. -/
def jsNestedInner : List (String × JVal) → Option PyFloat
  | [] => none
  | (kk, vv) :: rest =>
    if keyMatchesSignal kk then
      match jsCoerceFloat vv with
      | some c => some c
      | none => jsNestedInner rest
    else jsNestedInner rest

/-- The outer nested loop of the page's `extractSignal`. -/
def jsNestedScan : Props → Option PyFloat
  | [] => none
  | (_, v) :: rest =>
    match jsEntries v with
    | some es =>
      match jsNestedInner es with
      | some c => some c
      | none => jsNestedScan rest
    | none => jsNestedScan rest

/-- The embedded page's `extractSignal`. -/
def jsExtractSignal (props : Props) : Option PyFloat :=
  match jsFlatScan SIGNAL_KEYS props with
  | some v => some v
  | none => jsNestedScan props

/-- JS word character (`\w`). -/
def isWordChar (c : Char) : Bool := c.isAlphanum || c = '_'

/-- A `\b` holds before the (word-initial) pattern when the previous
character is absent or not a word character. -/
def boundaryB : Option Char → Bool
  | none => true
  | some c => !isWordChar c

/-- A `\b` holds after the (word-final) pattern when the next character is
absent or not a word character. -/
def boundaryA : List Char → Bool
  | [] => true
  | c :: _ => !isWordChar c

/-- Match of `needle` at the current position, with optional `\b`
requirements before and after. -/
def hitAt (needle : List Char) (needB needA : Bool) (prev : Option Char)
    (l : List Char) : Bool :=
  (!needB || boundaryB prev) && leadsWith needle l &&
    (!needA || boundaryA (l.drop needle.length))

/-- Scan for an occurrence of `needle` anywhere, with optional boundary
requirements (a regex `test` for a single literal alternative). -/
def scanOcc (needle : List Char) (needB needA : Bool) :
    Option Char → List Char → Bool
  | prev, [] => hitAt needle needB needA prev []
  | prev, c :: rest =>
    hitAt needle needB needA prev (c :: rest) ||
      scanOcc needle needB needA (some c) rest

/-- Test `/\bbridge|bridged\b/.test(raw)`. -/
def jsTestBridge (raw : String) : Bool :=
  scanOcc "bridge".toList true false none raw.data ||
    scanOcc "bridged".toList false true none raw.data

/-- Test `/\bclient|station|\bsta\b/.test(raw)`. -/
def jsTestClient (raw : String) : Bool :=
  scanOcc "client".toList true false none raw.data ||
    subOf "station".toList raw.data ||
    scanOcc "sta".toList true true none raw.data

/-- Test `/\bwifi\b/.test(raw)`. -/
def jsTestWifi (raw : String) : Bool :=
  scanOcc "wifi".toList true true none raw.data

/-- The page's explicit type field:
`(props['Type'] || props['type'] || '').toString().trim().toLowerCase()`. -/
def jsExplicit (props : Props) : String :=
  asciiLower (stripWS (jsToString (jsOrChain props ["Type", "type"])))

/-- The page's concatenated type-ish text:
`TYPE_KEYS.map(k => (props[k] || '')).join(' ').toLowerCase()`. -/
def jsRawText (props : Props) : String :=
  asciiLower (joinWith " " (TYPE_KEYS.map (fun k =>
    jsToString (match getProp props k with
      | some v => if jsTruthy v then v else .str ""
      | none => .str ""))))

/-- The embedded page's `inferType`: explicit field first, then the
substring heuristics, then SSID+Channel presence, then the encryption
hint, else `unknown`. -/
def jsInferType (props : Props) : String :=
  let raw := jsRawText props
  if jsExplicit props = "client" then "client"
  else if jsExplicit props = "ap" ∨ jsExplicit props = "access point" then "ap"
  else if jsExplicit props = "bridge" then "bridge"
  else if jsTestBridge raw then "bridge"
  else if jsTestClient raw then "client"
  else if jsTestWifi raw then "ap"
  else if jsTruthy (jsOrChain props ["SSID", "ssid", "dot11.device.ssid"]) &&
      jsTruthy (jsOrChain props ["Channel", "channel", "kismet.device.base.channel"]) then
    "ap"
  else
    let enc := asciiLower (jsToString (jsOrChain props ["Encryption", "encryption"]))
    if enc ≠ "" && enc ≠ "unknown" && enc ≠ "open" then "ap"
    else "unknown"

/-- JS `x < t` for a number `x` against a finite decimal threshold
`(tn, te)`: false for `NaN` and `Infinity`, true for `-Infinity`. -/
def jsLt : PyFloat → ℤ → ℤ → Bool
  | .finite n e, tn, te => decLtB n e tn te
  | .neginf, _, _ => true
  | .inf, _, _ => false
  | .nan, _, _ => false

/-- The minimum-signal clause of `passesFilters`: with a finite parsed
threshold, a present signal strictly below it fails; a non-finite parse
disables the clause. -/
def sigFail (minSigStr : String) (sig : Option PyFloat) : Bool :=
  match jsParseFloat minSigStr with
  | .finite tn te =>
    match sig with
    | some x => jsLt x tn te
    | none => false
  | _ => false

/-- A cached marker item of the page (`type` from `inferType`, `signal`
from `extractSignal`, plus the raw properties). -/
structure Item where
  type : String
  signal : Option PyFloat
  props : Props

/-- The page's filter controls: active type checkboxes, the slider's raw
string value, and the SSID query text. -/
structure FilterState where
  activeTypes : List String
  minSig : String
  query : String

/-- The SSID-query clause of `passesFilters`: an empty (trimmed,
lowercased) query passes everything, otherwise the record's SSID-ish field
must contain the query case-insensitively. -/
def queryOk (query : String) (props : Props) : Bool :=
  if asciiLower (stripWS query) = "" then true
  else
    subOf (asciiLower (stripWS query)).toList
      (asciiLower (jsToString
        (jsOrChain props ["SSID", "ssid", "dot11.device.ssid"]))).toList

/-- The page's `passesFilters`: type in the active set, the minimum-signal
clause, and the case-insensitive SSID substring query. -/
def passesFilters (st : FilterState) (it : Item) : Bool :=
  st.activeTypes.contains it.type &&
  !(sigFail st.minSig it.signal) &&
  queryOk st.query it.props

/-- Number of records passing the filters (the count pill / cluster size). -/
def countPassing (st : FilterState) (items : List Item) : ℕ :=
  (items.filter (passesFilters st)).length

/-- The §4.1 flat step as the spec words it: "try each key in a fixed
ranked list in order; for each present key, coerce its value and return
the first successfully coerced value". -/
def signalSpecFlat (props : Props) : Option PyFloat :=
  SIGNAL_KEYS.findSome? (fun k => (getProp props k).bind coerce_float)

/-- The §4.1 nested step as the spec words it: "scan all values that are
themselves mappings one level deep; within each, scan their keys
case-insensitively for substring match on signal or dbm; return the first
successfully coerced match". -/
def signalSpecNested (props : Props) : Option PyFloat :=
  props.findSome? (fun kv =>
    match kv.2 with
    | .obj fields =>
      fields.findSome? (fun e =>
        if keyMatchesSignal e.1 then coerce_float e.2 else none)
    | _ => none)

/-- The §4.1 signal-extraction algorithm as the spec words it, for
comparison with `extract_signal_dbm`. -/
def signalSpec (props : Props) : Option PyFloat :=
  match signalSpecFlat props with
  | some v => some v
  | none => signalSpecNested props

/-- Is a value not a non-finite float?  (`NaN`/`Infinity` numbers are the
only values the page's `coerceFloat` can return unguarded.) -/
def finiteNum : JVal → Bool
  | .num (.finite _ _) => true
  | .num _ => false
  | _ => true

/-- All numbers directly in a value, and one level inside an object or
array, are finite. -/
def shallowFinite (v : JVal) : Bool :=
  finiteNum v &&
    (match v with
     | .obj fs => fs.all (fun e => finiteNum e.2)
     | .arr xs => xs.all finiteNum
     | _ => true)

/-- All numbers reachable by the page's signal extractor (flat values and
one-level-nested values) are finite. -/
def propsShallowFinite (props : Props) : Bool :=
  props.all (fun e => shallowFinite e.2)

/-- An optional float that is absent or finite. -/
def optFinite : Option PyFloat → Bool
  | none => true
  | some (.finite _ _) => true
  | some _ => false

/-- The ten decimal digit characters. -/
def digitChars : List Char :=
  ['0', '1', '2', '3', '4', '5', '6', '7', '8', '9']

/-- A plain ASCII integer numeral: an optional leading ASCII minus followed
by one or more decimal digits. -/
def simpleNumeral (s : String) : Bool :=
  match s.data with
  | [] => false
  | c :: ds =>
    if c = '-' then !ds.isEmpty && ds.all (digitChars.contains ·)
    else (c :: ds).all (digitChars.contains ·)

/-! ## Helper lemmas -/

/-- A successful lookup pairs the key with a value occurring in the list. -/
theorem getProp_mem {props : Props} {k : String} {v : JVal}
    (h : getProp props k = some v) : (k, v) ∈ props := by
  induction props with
  | nil => simp [getProp] at h
  | cons kv rest ih =>
    obtain ⟨k', v'⟩ := kv
    by_cases hk : k' = k
    · subst hk
      simp [getProp] at h
      simp [h]
    · simp [getProp, hk] at h
      exact List.mem_cons_of_mem _ (ih h)

/-- Membership form of `List.contains` under a lawful `BEq`. -/
theorem contains_mem {α : Type} [BEq α] [LawfulBEq α] {l : List α} {a : α} :
    l.contains a = true ↔ a ∈ l := by
  simp [List.contains, List.elem_iff]

/-- Filtering with a pointwise-weaker predicate keeps at least as many
elements. -/
theorem length_filter_mono {α : Type} {p q : α → Bool} (l : List α)
    (h : ∀ a, p a = true → q a = true) :
    (l.filter p).length ≤ (l.filter q).length := by
  rw [← List.countP_eq_length_filter, ← List.countP_eq_length_filter]
  exact List.countP_mono_left (fun a _ => h a)

/-- The flat loop of `extract_signal_dbm` is the ranked-first-match of the
spec. -/
theorem flatScan_eq (ks : List String) (props : Props) :
    flatScan ks props =
      ks.findSome? (fun k => (getProp props k).bind coerce_float) := by
  induction ks with
  | nil => rfl
  | cons k ks ih =>
    rw [flatScan, List.findSome?_cons]
    cases hg : getProp props k with
    | none => simp [hg, ih]
    | some v => cases hc : coerce_float v <;> simp [hc, ih]

/-- The inner nested loop is the first-match of the spec's nested step. -/
theorem nestedInner_eq (fields : List (String × JVal)) :
    nestedInner fields =
      fields.findSome? (fun e =>
        if keyMatchesSignal e.1 then coerce_float e.2 else none) := by
  induction fields with
  | nil => rfl
  | cons e rest ih =>
    obtain ⟨kk, vv⟩ := e
    rw [nestedInner, List.findSome?_cons]
    cases hm : keyMatchesSignal kk
    · simp [hm, ih]
    · cases hc : coerce_float vv <;> simp [hm, hc, ih]

/-- The outer nested loop is the spec's one-level scan over dict values. -/
theorem nestedScan_eq (props : Props) :
    nestedScan props = signalSpecNested props := by
  induction props with
  | nil => rfl
  | cons kv rest ih =>
    obtain ⟨k, v⟩ := kv
    unfold signalSpecNested at ih ⊢
    rw [List.findSome?_cons]
    cases v with
    | obj fields =>
      rw [nestedScan, nestedInner_eq]
      cases hf : fields.findSome? (fun e =>
          if keyMatchesSignal e.1 then coerce_float e.2 else none) <;>
        simp [hf, ih]
    | null => simp [nestedScan, ih]
    | bool b => simp [nestedScan, ih]
    | int n => simp [nestedScan, ih]
    | num x => simp [nestedScan, ih]
    | str s => simp [nestedScan, ih]
    | arr xs => simp [nestedScan, ih]

/-- A shallow-finite value is itself not a non-finite number. -/
theorem shallowFinite_num {v : JVal} (h : shallowFinite v = true) :
    finiteNum v = true := by
  simp only [shallowFinite, Bool.and_eq_true] at h
  exact h.1

/-- The guarded string path never produces a non-finite value. -/
theorem jsStrCoerce_finite (s : String) : optFinite (jsStrCoerce s) = true := by
  simp only [jsStrCoerce]
  generalize jsParseFloat _ = y
  cases y <;> rfl

/-- The page's `coerceFloat` is finite-or-absent on every value that is not itself a
non-finite number. -/
theorem jsCoerce_finite (v : JVal) (h : finiteNum v = true) :
    optFinite (jsCoerceFloat v) = true := by
  cases v with
  | null => rfl
  | int n => rfl
  | num x =>
    cases x with
    | finite n e => rfl
    | inf => simp [finiteNum] at h
    | neginf => simp [finiteNum] at h
    | nan => simp [finiteNum] at h
  | bool b => simp only [jsCoerceFloat]; exact jsStrCoerce_finite _
  | str s => simp only [jsCoerceFloat]; exact jsStrCoerce_finite _
  | arr xs => simp only [jsCoerceFloat]; exact jsStrCoerce_finite _
  | obj fs => simp only [jsCoerceFloat]; exact jsStrCoerce_finite _

/-- The flat loop of `extractSignal` is finite-or-absent when the flat
values hold no non-finite numbers. -/
theorem jsFlatScan_finite (ks : List String) (props : Props)
    (h : ∀ kv ∈ props, finiteNum kv.2 = true) :
    optFinite (jsFlatScan ks props) = true := by
  induction ks with
  | nil => rfl
  | cons k ks ih =>
    cases hg : getProp props k with
    | none => simp only [jsFlatScan, hg]; exact ih
    | some v =>
      cases hc : jsCoerceFloat v with
      | none => simp only [jsFlatScan, hg, hc]; exact ih
      | some x =>
        simp only [jsFlatScan, hg, hc]
        have hcv := jsCoerce_finite v (h (k, v) (getProp_mem hg))
        rw [hc] at hcv
        exact hcv

/-- The inner nested loop is finite-or-absent when the nested entries hold
no non-finite numbers. -/
theorem jsNestedInner_finite :
    ∀ es : List (String × JVal), (∀ e ∈ es, finiteNum e.2 = true) →
      optFinite (jsNestedInner es) = true := by
  intro es
  induction es with
  | nil => intro _; rfl
  | cons e rest ih =>
    intro h
    obtain ⟨kk, vv⟩ := e
    rw [jsNestedInner]
    have hrest := ih (fun e he => h e (List.mem_cons_of_mem _ he))
    cases hm : keyMatchesSignal kk
    · simp only [Bool.false_eq_true, if_false]
      exact hrest
    · simp only [if_true]
      have hcv := jsCoerce_finite vv (h (kk, vv) (List.mem_cons_self _ _))
      cases hc : jsCoerceFloat vv with
      | none => exact hrest
      | some c => rw [hc] at hcv; exact hcv

/-- Entries of an array value pair index keys with elements of the
array. -/
theorem arrEntries_mem {xs : List JVal} :
    ∀ {i : ℕ} {kv : String × JVal}, kv ∈ arrEntries i xs → kv.2 ∈ xs := by
  induction xs with
  | nil => intro i kv h; simp [arrEntries] at h
  | cons x xs ih =>
    intro i kv h
    rw [arrEntries] at h
    rcases List.mem_cons.mp h with h | h
    · subst h; exact List.mem_cons_self _ _
    · exact List.mem_cons_of_mem _ (ih h)

/-- The outer nested loop is finite-or-absent when all one-level-nested
values hold no non-finite numbers. -/
theorem jsNestedScan_finite :
    ∀ props : Props, (∀ kv ∈ props, shallowFinite kv.2 = true) →
      optFinite (jsNestedScan props) = true := by
  intro props
  induction props with
  | nil => intro _; rfl
  | cons kv rest ih =>
    intro h
    obtain ⟨k, v⟩ := kv
    have hrest := ih (fun e he => h e (List.mem_cons_of_mem _ he))
    have hsf : shallowFinite v = true := h (k, v) (List.mem_cons_self _ _)
    cases he : jsEntries v with
    | none => simp only [jsNestedScan, he]; exact hrest
    | some es =>
      have hes : ∀ e ∈ es, finiteNum e.2 = true := by
        cases v with
        | obj fs =>
          rw [jsEntries] at he
          injection he with he
          subst he
          intro e hee
          simp only [shallowFinite, Bool.and_eq_true, List.all_eq_true] at hsf
          exact hsf.2 e hee
        | arr xs =>
          rw [jsEntries] at he
          injection he with he
          subst he
          intro e hee
          simp only [shallowFinite, Bool.and_eq_true, List.all_eq_true] at hsf
          exact hsf.2 _ (arrEntries_mem hee)
        | null => simp [jsEntries] at he
        | bool b => simp [jsEntries] at he
        | int n => simp [jsEntries] at he
        | num x => simp [jsEntries] at he
        | str s => simp [jsEntries] at he
      have hin := jsNestedInner_finite es hes
      cases hni : jsNestedInner es with
      | none => simp only [jsNestedScan, he, hni]; exact hrest
      | some c =>
        simp only [jsNestedScan, he, hni]
        rw [hni] at hin
        exact hin

/-- Rewriting a decimal at a smaller exponent. -/
theorem toQ_scale (n e m : ℤ) (h : m ≤ e) :
    toQ n e = ((n * 10 ^ (e - m).toNat : ℤ) : ℚ) * (10 : ℚ) ^ m := by
  have h10 : (10 : ℚ) ≠ 0 := by norm_num
  have hem : e - m + m = e := by ring
  have hn : ((e - m).toNat : ℤ) = e - m := Int.toNat_of_nonneg (by omega)
  have key : (10 : ℚ) ^ e = (10 : ℚ) ^ ((e - m).toNat : ℤ) * (10 : ℚ) ^ m := by
    rw [hn, ← zpow_add₀ h10, hem]
  rw [toQ, key, zpow_natCast]
  push_cast
  ring

/-- The executable strict decimal comparison agrees with the rational
order. -/
theorem decLtB_iff (n1 e1 n2 e2 : ℤ) :
    decLtB n1 e1 n2 e2 = true ↔ toQ n1 e1 < toQ n2 e2 := by
  have hpos : (0 : ℚ) < (10 : ℚ) ^ (min e1 e2) := by positivity
  rw [toQ_scale n1 e1 (min e1 e2) (min_le_left _ _),
    toQ_scale n2 e2 (min e1 e2) (min_le_right _ _),
    mul_lt_mul_right hpos, Int.cast_lt]
  simp [decLtB]

/-- The executable non-strict decimal comparison agrees with the rational
order. -/
theorem decLeB_iff (n1 e1 n2 e2 : ℤ) :
    decLeB n1 e1 n2 e2 = true ↔ toQ n1 e1 ≤ toQ n2 e2 := by
  have hpos : (0 : ℚ) < (10 : ℚ) ^ (min e1 e2) := by positivity
  rw [toQ_scale n1 e1 (min e1 e2) (min_le_left _ _),
    toQ_scale n2 e2 (min e1 e2) (min_le_right _ _),
    mul_le_mul_right hpos, Int.cast_le]
  simp [decLeB]

/-- Lowering the threshold can only keep the `signal < threshold` clause
from failing more records. -/
theorem jsLt_mono {x : PyFloat} {t1n t1e t2n t2e : ℤ}
    (hle : decLeB t2n t2e t1n t1e = true)
    (h : jsLt x t2n t2e = true) : jsLt x t1n t1e = true := by
  cases x with
  | finite n e =>
    simp only [jsLt] at h ⊢
    rw [decLtB_iff] at h ⊢
    rw [decLeB_iff] at hle
    exact lt_of_lt_of_le h hle
  | inf => simp [jsLt] at h
  | neginf => rfl
  | nan => simp [jsLt] at h

/-- Replacing the threshold by a lower (or equal) finite one cannot make
the minimum-signal clause start failing a record it passed. -/
theorem sigFail_lower {minS1 minS2 : String} {sig : Option PyFloat}
    {t1n t1e t2n t2e : ℤ}
    (hp1 : jsParseFloat minS1 = .finite t1n t1e)
    (hp2 : jsParseFloat minS2 = .finite t2n t2e)
    (hle : decLeB t2n t2e t1n t1e = true)
    (h : sigFail minS1 sig = false) : sigFail minS2 sig = false := by
  unfold sigFail at h ⊢
  rw [hp1] at h
  rw [hp2]
  cases sig with
  | none => rfl
  | some x =>
    change jsLt x t1n t1e = false at h
    change jsLt x t2n t2e = false
    cases hj : jsLt x t2n t2e
    · rfl
    · exfalso
      rw [jsLt_mono hle hj] at h
      exact absurd h (by decide)

/-- A string is its own character list repackaged. -/
theorem mk_data (s : String) : String.mk s.data = s := rfl

/-- The specialization of `simpleNumeral` to a non-empty character list. -/
theorem simpleNumeral_cons {a : Char} {ds : List Char} {s : String}
    (hd : s.data = a :: ds) :
    simpleNumeral s =
      if a = '-' then !ds.isEmpty && ds.all (digitChars.contains ·)
      else (a :: ds).all (digitChars.contains ·) := by
  unfold simpleNumeral
  rw [hd]

/-- All characters of a simple numeral are the minus sign or digits. -/
theorem simpleNumeral_chars {s : String} (h : simpleNumeral s = true) :
    ∀ c ∈ s.data, c ∈ '-' :: digitChars := by
  intro c hc
  cases hd : s.data with
  | nil => rw [hd] at hc; simp at hc
  | cons a ds =>
    rw [simpleNumeral_cons hd] at h
    rw [hd] at hc
    by_cases ha : a = '-'
    · subst ha
      rw [if_pos rfl] at h
      simp only [Bool.and_eq_true, List.all_eq_true] at h
      rcases List.mem_cons.mp hc with rfl | hmem
      · exact List.mem_cons_self _ _
      · exact List.mem_cons_of_mem _ (contains_mem.mp (h.2 c hmem))
    · rw [if_neg ha] at h
      simp only [List.all_eq_true] at h
      exact List.mem_cons_of_mem _ (contains_mem.mp (h c hc))

/-- Mapping a function that fixes every character of a class fixes lists
over that class. -/
theorem map_id_of_mem {l S : List Char} {f : Char → Char}
    (hf : ∀ c ∈ S, f c = c) (hall : ∀ c ∈ l, c ∈ S) : l.map f = l := by
  induction l with
  | nil => rfl
  | cons c rest ih =>
    rw [List.map_cons, hf c (hall c (List.mem_cons_self _ _)),
      ih (fun c' hc' => hall c' (List.mem_cons_of_mem _ hc'))]

/-- Dropping by a predicate that fails everywhere is the identity. -/
theorem dropWhile_id_of_not {l : List Char} {p : Char → Bool}
    (hall : ∀ c ∈ l, p c = false) : l.dropWhile p = l := by
  cases l with
  | nil => rfl
  | cons c rest =>
    rw [List.dropWhile_cons]
    simp [hall c (List.mem_cons_self _ _)]

/-- Stripping whitespace is the identity on minus-digit strings. -/
theorem stripWS_id {s : String} (hall : ∀ c ∈ s.data, c ∈ '-' :: digitChars) :
    stripWS s = s := by
  have hws : ∀ c ∈ ('-' :: digitChars), Char.isWhitespace c = false := by decide
  have h1 : s.data.dropWhile Char.isWhitespace = s.data :=
    dropWhile_id_of_not (fun c hc => hws c (hall c hc))
  have h2 : s.data.reverse.dropWhile Char.isWhitespace = s.data.reverse :=
    dropWhile_id_of_not (fun c hc => hws c (hall c (List.mem_reverse.mp hc)))
  unfold stripWS
  rw [h1, h2, List.reverse_reverse]

/-- Lowercasing is the identity on minus-digit strings. -/
theorem asciiLower_id {s : String}
    (hall : ∀ c ∈ s.data, c ∈ '-' :: digitChars) : asciiLower s = s := by
  unfold asciiLower
  rw [map_id_of_mem (by decide : ∀ c ∈ ('-' :: digitChars), Char.toLower c = c)
    hall]

/-- Character replacement is the identity when no character of the class is
the pattern (or the pattern is replaced by itself). -/
theorem replaceAll_id {s : String} {c r : Char}
    (hall : ∀ d ∈ s.data, d ∈ '-' :: digitChars)
    (hcr : ∀ d ∈ ('-' :: digitChars), (if d = c then r else d) = d) :
    replaceAllChar s c r = s := by
  unfold replaceAllChar
  rw [map_id_of_mem hcr hall]

/-- Removal of `dbm` keeps any minus-or-digit head. -/
theorem removeDbm_cons {c : Char} {rest : List Char}
    (hc : c ∈ '-' :: digitChars) :
    removeDbm (c :: rest) = c :: removeDbm rest := by
  fin_cases hc <;> rfl

/-- Removal of `dbm` is the identity on minus-digit lists. -/
theorem removeDbm_id {l : List Char}
    (hall : ∀ c ∈ l, c ∈ '-' :: digitChars) : removeDbm l = l := by
  induction l with
  | nil => rfl
  | cons c rest ih =>
    rw [removeDbm_cons (hall c (List.mem_cons_self _ _)),
      ih (fun c' hc' => hall c' (List.mem_cons_of_mem _ hc'))]

/-- No minus-digit string ends in `dBm`. -/
theorem revDbm_false {r : List Char}
    (hall : ∀ c ∈ r, c ∈ '-' :: digitChars) : revDbm r = false := by
  cases r with
  | nil => rfl
  | cons a r1 =>
    cases r1 with
    | nil => rfl
    | cons b r2 =>
      cases r2 with
      | nil => rfl
      | cons c rest =>
        have ha := hall a (List.mem_cons_self _ _)
        fin_cases ha <;> rfl

/-- No minus-digit string ends in `dB`. -/
theorem revDb_false {r : List Char}
    (hall : ∀ c ∈ r, c ∈ '-' :: digitChars) : revDb r = false := by
  cases r with
  | nil => rfl
  | cons a r1 =>
    cases r1 with
    | nil => rfl
    | cons b r2 =>
      have ha := hall a (List.mem_cons_self _ _)
      fin_cases ha <;> rfl

/-- Unit stripping is the identity on minus-digit strings. -/
theorem stripDb_id {s : String}
    (hall : ∀ c ∈ s.data, c ∈ '-' :: digitChars) : stripDb s = s := by
  have hr : ∀ c ∈ s.data.reverse, c ∈ '-' :: digitChars :=
    fun c hc => hall c (List.mem_reverse.mp hc)
  simp [stripDb, revDbm_false hr, revDb_false hr]

/-- A simple numeral is none of `to_float`'s sentinel words. -/
theorem simpleNumeral_ne {s : String} (h : simpleNumeral s = true) :
    ¬(s = "" ∨ s = "none" ∨ s = "nan") := by
  rintro (rfl | rfl | rfl) <;> exact absurd h (by decide)

/-! ## Theorems -/

/-- C6: the map builder's numeric coercion sends `"−,75 dBm"` (Unicode
minus, decimal comma, dBm suffix) to `-0.75`, `"−75 dBm"` to `-75.0`, and
the non-numeric `"n/a"` to absent rather than an error. -/
theorem c6_coercion_examples :
    coerce_float (.str "−,75 dBm") = some (.finite (-75) (-2)) ∧
    toQ (-75) (-2) = -(0.75 : ℚ) ∧
    coerce_float (.str "−75 dBm") = some (.finite (-75) 0) ∧
    toQ (-75) 0 = -(75 : ℚ) ∧
    coerce_float (.str "n/a") = none := by
  refine ⟨by decide, by norm_num [toQ], by decide, by norm_num [toQ], by decide⟩

/-- C1 counterexample: for the offline classifier `infer_type`, an explicit
`Type` field exactly equal to `"client"` does NOT win over other type-ish
fields: with `typename = "bridge"` also present the classifier returns
`"bridge"`, not `"client"`, because this copy has no explicit-field
precedence step. -/
theorem c1_explicit_overridden :
    infer_type [("Type", .str "client"), ("typename", .str "bridge")] = "bridge" ∧
    infer_type [("Type", .str "client"), ("typename", .str "bridge")] ≠ "client" := by
  refine ⟨?_, ?_⟩ <;> decide

/-- C2 evaluation at the claimed scenario: the CSV row with
`CurrentLatitude=47.5`, `CurrentLongitude=19.0`, `RSSI="-67dbm"`,
`SSID=""` yields one feature with coordinates `[19.0, 47.5]` and
`Signal = -67.0`, but its `SSID` is the empty string, not `"hidden"`: the
`row.get("SSID", "hidden")` default fires only when the column is absent,
never for a present-but-blank cell. -/
theorem c2_blank_ssid_not_hidden :
    processRow
        [("CurrentLatitude", "47.5"), ("CurrentLongitude", "19.0"),
         ("RSSI", "-67dbm"), ("SSID", "")] =
      some
        { lon := .finite 19 0
          lat := .finite 475 (-1)
          SSID := ""
          BSSID := ""
          Channel := ""
          Signal := some (.finite (-67) 0)
          Encryption := "" } ∧
    toQ 19 0 = (19 : ℚ) ∧ toQ 475 (-1) = (47.5 : ℚ) ∧ toQ (-67) 0 = -(67 : ℚ) := by
  refine ⟨by decide, by norm_num [toQ], by norm_num [toQ], by norm_num [toQ]⟩

/-- C3 counterexample: the two coercions are not extensionally equal — on
`"−75 dBm"` (the spec's own Unicode-minus example) `coerce_float` yields
`-75.0` while `to_float` yields absent, because `to_float`'s
`.replace("-", "-")` is an ASCII no-op and never normalizes the Unicode
minus. -/
theorem c3_not_extensionally_equal :
    to_float (.str "−75 dBm") = none ∧
    coerce_float (.str "−75 dBm") = some (.finite (-75) 0) ∧
    to_float (.str "−75 dBm") ≠ coerce_float (.str "−75 dBm") := by
  refine ⟨?_, ?_, ?_⟩ <;> decide

/-- C4 counterexample: the offline signal extractor can return a
non-finite value: on the property mapping with `signal = "inf"` it returns
`+inf`, since Python `float("inf")` succeeds and `coerce_float` has no
finiteness guard. -/
theorem c4_extractor_returns_inf :
    extract_signal_dbm [("signal", .str "inf")] = some .inf := by
  decide

/-- C8 evaluation at the failing input: a record whose `essid` element is
present but empty (its text is `None`) raises `AttributeError`, so the
whole file aborts — not even the preceding good record's flat row is
produced, contradicting "always emit a flat row" and "parse failures drop
the feature silently". -/
theorem c8_empty_essid_aborts :
    parse_netxml
        [⟨some "AA:BB:CC:DD:EE:01", some (some "Net1"), some (some "WEP"),
          none, none, none, none⟩,
         ⟨some "AA:BB:CC:DD:EE:02", some none, none, none, none, none, none⟩] =
      .error .attributeError := by
  rfl

/-- C10: a record whose `encryption` element is present but empty (text
`None`) makes `parse_netxml` raise `AttributeError` (`None.upper()`), and
the error aborts the whole file: the following well-formed record is never
processed. -/
theorem c10_empty_encryption_crashes :
    parse_netxml
        [⟨some "AA:BB:CC:DD:EE:03", some (some "Net2"), some none,
          none, none, none, none⟩,
         ⟨some "AA:BB:CC:DD:EE:04", some (some "Net3"), some (some "WPA2"),
          none, none, none, none⟩] =
      .error .attributeError := by
  rfl

/-- C1 (amended): for the renderer's in-page classifier `inferType`, the
explicit type field (`Type` preferred over `type`, stringified, trimmed,
lowercased) wins outright: whenever it equals `"client"`,
`"ap"`/`"access point"`, or `"bridge"`, the classifier returns that
category, whatever other fields or heuristic signals the mapping holds. -/
theorem c1_js_explicit_wins (props : Props) :
    (jsExplicit props = "client" → jsInferType props = "client") ∧
    ((jsExplicit props = "ap" ∨ jsExplicit props = "access point") →
      jsInferType props = "ap") ∧
    (jsExplicit props = "bridge" → jsInferType props = "bridge") := by
  refine ⟨fun h => ?_, fun h => ?_, fun h => ?_⟩
  · simp [jsInferType, h]
  · rcases h with h | h <;> simp [jsInferType, h]
  · simp [jsInferType, h]

/-- Witness for `c1_js_explicit_wins`: an explicit `Type = "Bridge"` wins
even with SSID and Channel present. -/
theorem c1_js_explicit_wins_witness :
    jsInferType
        [("Type", .str "Bridge"), ("SSID", .str "x"), ("Channel", .str "6")] =
      "bridge" :=
  (c1_js_explicit_wins
    [("Type", .str "Bridge"), ("SSID", .str "x"), ("Channel", .str "6")]).2.2
    (by decide)

/-- C5: the signal extractor is exactly the spec's ranked first-match
algorithm (flat ranked keys in order, each present key's value coerced,
first success returned; only then the one-level nested scan for keys
containing `signal`/`dbm`; else absent), and any returned value is the
coercion of one single field — nothing is averaged or combined. -/
theorem c5_ranked_first_match (props : Props) :
    extract_signal_dbm props = signalSpec props ∧
    ∀ x, extract_signal_dbm props = some x →
      (∃ k ∈ SIGNAL_KEYS, ∃ v, getProp props k = some v ∧
        coerce_float v = some x) ∨
      (∃ k fields, (k, JVal.obj fields) ∈ props ∧
        ∃ kk vv, (kk, vv) ∈ fields ∧ keyMatchesSignal kk = true ∧
          coerce_float vv = some x) := by
  have heq : extract_signal_dbm props = signalSpec props := by
    unfold extract_signal_dbm signalSpec signalSpecFlat
    rw [flatScan_eq, nestedScan_eq]
  refine ⟨heq, fun x hx => ?_⟩
  rw [heq] at hx
  unfold signalSpec at hx
  cases hf : signalSpecFlat props with
  | some v =>
    rw [hf] at hx
    left
    unfold signalSpecFlat at hf
    obtain ⟨k, hk, hkx⟩ := List.exists_of_findSome?_eq_some hf
    cases hg : getProp props k with
    | none => rw [hg] at hkx; simp at hkx
    | some w =>
      rw [hg] at hkx
      simp only [Option.some_bind] at hkx
      exact ⟨k, hk, w, hg, by rw [hkx]; exact congrArg some (Option.some.inj hx)⟩
  | none =>
    rw [hf] at hx
    right
    unfold signalSpecNested at hx
    obtain ⟨kv, hkv, hkvx⟩ := List.exists_of_findSome?_eq_some hx
    obtain ⟨k, v⟩ := kv
    cases v with
    | obj fields =>
      simp only at hkvx
      obtain ⟨e, he, hex⟩ := List.exists_of_findSome?_eq_some hkvx
      obtain ⟨kk, vv⟩ := e
      cases hm : keyMatchesSignal kk with
      | false => rw [if_neg (by simp [hm])] at hex; exact absurd hex (by simp)
      | true =>
        rw [if_pos (by simp [hm])] at hex
        exact ⟨k, fields, hkv, kk, vv, he, hm, hex⟩
    | null => simp at hkvx
    | bool b => simp at hkvx
    | int n => simp at hkvx
    | num y => simp at hkvx
    | str s => simp at hkvx
    | arr xs => simp at hkvx

/-- Witness for `c5_ranked_first_match`: a mapping whose `signal` key
coerces to `-70`, exhibiting the single originating field. -/
theorem c5_ranked_first_match_witness :
    extract_signal_dbm [("signal", .str "-70")] =
        signalSpec [("signal", .str "-70")] ∧
      ((∃ k ∈ SIGNAL_KEYS, ∃ v, getProp [("signal", .str "-70")] k = some v ∧
          coerce_float v = some (.finite (-7) 1)) ∨
        (∃ k fields, (k, JVal.obj fields) ∈ [("signal", JVal.str "-70")] ∧
          ∃ kk vv, (kk, vv) ∈ fields ∧ keyMatchesSignal kk = true ∧
            coerce_float vv = some (.finite (-7) 1))) :=
  ⟨(c5_ranked_first_match [("signal", .str "-70")]).1,
    (c5_ranked_first_match [("signal", .str "-70")]).2
      (.finite (-7) 1) (by decide)⟩

/-- C7: a CSV data row is skipped — and therefore contributes nothing to
the feature list or its reported count — when its (preference-resolved)
coordinates are missing or fail to parse as floats, and likewise when both
parsed coordinates are within the `1e-4` tolerance of zero. -/
theorem c7_bad_or_zero_rows_skipped (row : Row)
    (h : rowCoords row = none ∨
      ∃ la lo, rowCoords row = some (la, lo) ∧
        pyAbsLt la coordTolN coordTolE = true ∧
        pyAbsLt lo coordTolN coordTolE = true) :
    processRow row = none ∧
    ∀ pre post : List Row,
      (csvFeatures (pre ++ row :: post)).length =
        (csvFeatures (pre ++ post)).length := by
  have hnone : processRow row = none := by
    rcases h with h | ⟨la, lo, hc, h1, h2⟩
    · simp [processRow, h]
    · simp [processRow, hc, h1, h2]
  refine ⟨hnone, fun pre post => ?_⟩
  simp [csvFeatures, List.filterMap_append, List.filterMap_cons, hnone]

/-- Witness for `c7_bad_or_zero_rows_skipped`: the row with
`CurrentLatitude = 0`, `CurrentLongitude = 0` is dropped. -/
theorem c7_bad_or_zero_rows_skipped_witness :
    processRow [("CurrentLatitude", "0"), ("CurrentLongitude", "0")] = none :=
  (c7_bad_or_zero_rows_skipped
    [("CurrentLatitude", "0"), ("CurrentLongitude", "0")]
    (Or.inr ⟨.finite 0 0, .finite 0 0, by decide, by decide, by decide⟩)).1

/-- C4 (amended): the renderer's in-page signal extractor returns absent
or a finite value for every property mapping whose directly-reachable
numbers (flat values and values one level inside nested objects/arrays)
are finite — in particular for every mapping of strings, whatever the
strings are.  (The offline extractor lacks the guard; see its
counterexample.) -/
theorem c4_page_extractor_finite (props : Props)
    (h : propsShallowFinite props = true) :
    optFinite (jsExtractSignal props) = true := by
  have hall : ∀ kv ∈ props, shallowFinite kv.2 = true := by
    simpa [propsShallowFinite, List.all_eq_true] using h
  unfold jsExtractSignal
  have hflat := jsFlatScan_finite SIGNAL_KEYS props
    (fun kv hkv => shallowFinite_num (hall kv hkv))
  cases hf : jsFlatScan SIGNAL_KEYS props with
  | some v => rw [hf] at hflat; exact hflat
  | none => exact jsNestedScan_finite props hall

/-- Witness for `c4_page_extractor_finite`: a string-valued mapping. -/
theorem c4_page_extractor_finite_witness :
    optFinite (jsExtractSignal [("signal", .str "-71")]) = true :=
  c4_page_extractor_finite [("signal", .str "-71")] (by decide)

/-- C9: the page's filter predicate is monotone.  For a fixed record set
and two filter states with the same query, where the second activates at
least the first's device types and its slider parses to a finite threshold
no higher than the first's, every record passing the first state passes
the second, and the passing-record count cannot decrease (equivalently,
narrowing cannot increase it). -/
theorem c9_filter_monotone (s1 s2 : FilterState) (t1n t1e t2n t2e : ℤ)
    (hsub : s1.activeTypes.all (fun t => s2.activeTypes.contains t) = true)
    (hp1 : jsParseFloat s1.minSig = .finite t1n t1e)
    (hp2 : jsParseFloat s2.minSig = .finite t2n t2e)
    (hle : decLeB t2n t2e t1n t1e = true)
    (hq : s1.query = s2.query) (items : List Item) :
    (∀ it, passesFilters s1 it = true → passesFilters s2 it = true) ∧
    countPassing s1 items ≤ countPassing s2 items := by
  have hit : ∀ it, passesFilters s1 it = true → passesFilters s2 it = true := by
    intro it h
    unfold passesFilters at h ⊢
    simp only [Bool.and_eq_true] at h ⊢
    obtain ⟨⟨h1, h2⟩, h3⟩ := h
    refine ⟨⟨?_, ?_⟩, ?_⟩
    · exact List.all_eq_true.mp hsub _ (contains_mem.mp h1)
    · have h2' : sigFail s1.minSig it.signal = false := by
        cases hb : sigFail s1.minSig it.signal
        · rfl
        · rw [hb] at h2; exact absurd h2 (by decide)
      rw [sigFail_lower hp1 hp2 hle h2']
      rfl
    · rw [← hq]
      exact h3
  refine ⟨hit, ?_⟩
  unfold countPassing
  exact length_filter_mono items hit

/-- Witness for `c9_filter_monotone`: widening `["ap"]` to
`["ap", "client"]` and lowering the slider from `-60` to `-120` keeps the
record with signal `-65` counted. -/
theorem c9_filter_monotone_witness :
    countPassing ⟨["ap"], "-60", ""⟩
        [⟨"ap", some (.finite (-65) 0), []⟩] ≤
      countPassing ⟨["ap", "client"], "-120", ""⟩
        [⟨"ap", some (.finite (-65) 0), []⟩] :=
  (c9_filter_monotone ⟨["ap"], "-60", ""⟩ ⟨["ap", "client"], "-120", ""⟩
    (-6) 1 (-12) 1 (by decide) (by decide) (by decide) (by decide) rfl
    [⟨"ap", some (.finite (-65) 0), []⟩]).2

/-- C3 (amended): the two numeric coercions agree on plain ASCII integer
numerals (optional ASCII minus, digits) — on those both reduce to the same
`float()` parse — but they are not extensionally equal in general (see the
counterexample: `to_float` never normalizes the Unicode minus, removes
`dbm` anywhere rather than one trailing unit, treats `nan`/`none` as
sentinels, and does not strip a bare `dB` suffix). -/
theorem c3_plain_numeral_agreement (s : String) (h : simpleNumeral s = true) :
    to_float (.str s) = coerce_float (.str s) := by
  have hall : ∀ c ∈ s.data, c ∈ '-' :: digitChars := simpleNumeral_chars h
  have hstrip : stripWS s = s := stripWS_id hall
  have hlower : asciiLower s = s := asciiLower_id hall
  have hrem : removeDbm s.data = s.data := removeDbm_id hall
  have hd1 : replaceAllChar s '-' '-' = s := replaceAll_id hall (by decide)
  have hd2 : replaceAllChar s ',' '.' = s := replaceAll_id hall (by decide)
  have hd3 : replaceAllChar s '−' '-' = s := replaceAll_id hall (by decide)
  have hdb : stripDb s = s := stripDb_id hall
  have hne : ¬(s = "" ∨ s = "none" ∨ s = "nan") := simpleNumeral_ne h
  have hTF : to_float (.str s) = pyFloat? s := by
    simp only [to_float, pyStr]
    rw [hstrip, hlower, hrem, mk_data, hd1, if_neg hne, hd2]
    cases hp : pyFloat? s <;> simp [hp]
  have hCF : coerce_float (.str s) = pyFloat? s := by
    simp only [coerce_float, pyStr]
    rw [hstrip, hd3, hdb, hd2]
  rw [hTF, hCF]

/-- Witness for `c3_plain_numeral_agreement`: both coercions send `"-67"`
to the same result. -/
theorem c3_plain_numeral_agreement_witness :
    simpleNumeral "-67" = true ∧
      to_float (.str "-67") = coerce_float (.str "-67") :=
  ⟨by decide, c3_plain_numeral_agreement "-67" (by decide)⟩

end WiMa
